import Mathlib

/-!
Verification of the FX accumulator/decumulator pricing engine.

The repository ships the React frontend (frontend/src/App.jsx) and deployment
notes; the backend engine itself (api/index.py with get_schedule,
monte_carlo_pricer and the /structure, /simulate, /valuation, /solve
endpoints) is not part of the available sources.  The engine components
below are therefore modelled from the specification's own wording
(schedule generator, payoff state machine, Monte Carlo valuation), with
prices and monetary values embedded as rationals.
-/

namespace FxAcc

/-- Product type of the structure: the client periodically buys
(Accumulator) or sells (Decumulator) at the strike. -/
inductive ProductType where
  | Accumulator
  | Decumulator
deriving DecidableEq, Repr

/-- Modelled from the spec: StructureConfig (section 3).  Dates are handled
by the calendar model further below; here the fields the payoff machine and
valuation need. -/
structure StructureConfig where
  product_type : ProductType
  strike_price : ℚ
  ko_price : ℚ
  notional : ℚ
  leverage : ℚ
  gearing_limit : Nat
deriving DecidableEq, Repr

/-- One leg of a fixing (client right leg_1 or client obligation leg_2). -/
structure Leg where
  strike : ℚ
  notional : ℚ
deriving DecidableEq, Repr

/-- Action tag carried by a fixing, per the spec's data model:
Accumulate/Decumulate (plain or geared), Knock Out, Hold, Terminated. -/
inductive Action where
  | accumulate (geared : Bool)
  | knockOut
  | hold
  | terminated
deriving DecidableEq, Repr

/-- Modelled from the spec: Fixing record produced by the payoff state
machine (section 3). -/
structure Fixing where
  fixing_id : Nat
  spot : ℚ
  leg_1 : Leg
  leg_2 : Leg
  geared : Bool
  pnl : Option ℚ
  cumulative_pnl : ℚ
  action : Action
deriving DecidableEq, Repr

/-- Modelled from the spec: StructureState, the per-path mutable state
(knockout flag, cumulative P&L, count of geared fixings so far). -/
structure StructureState where
  knocked_out : Bool
  cum_pnl : ℚ
  geared_count : Nat
deriving DecidableEq, Repr

/-- Initial state of one path evaluation. -/
def initState : StructureState := ⟨false, 0, 0⟩

/-- P&L sign: +1 for Accumulator, -1 for Decumulator. -/
def pnlSign : ProductType → ℚ
  | .Accumulator => 1
  | .Decumulator => -1

/-- Knockout condition (spec 4.2 step 2): spot ≥ barrier (Accumulator) or
spot ≤ barrier (Decumulator), non-strict. -/
def koHit (c : StructureConfig) (spot : ℚ) : Bool :=
  match c.product_type with
  | .Accumulator => decide (c.ko_price ≤ spot)
  | .Decumulator => decide (spot ≤ c.ko_price)

/-- Loss-fixing condition (spec 4.2 step 3): spot < strike (Accumulator) /
spot > strike (Decumulator). -/
def lossFixing (c : StructureConfig) (spot : ℚ) : Bool :=
  match c.product_type with
  | .Accumulator => decide (spot < c.strike_price)
  | .Decumulator => decide (c.strike_price < spot)

/-- Gearing eligibility (spec 4.2 step 3): loss fixing AND geared count so
far strictly below the gearing limit. -/
def gearEligible (c : StructureConfig) (st : StructureState) (spot : ℚ) : Bool :=
  lossFixing c spot && decide (st.geared_count < c.gearing_limit)

/-- Signed per-fixing P&L (spec 4.2 step 4):
sign × notional_used × (spot − strike) / spot. -/
def fixingPnl (c : StructureConfig) (notional_used spot : ℚ) : ℚ :=
  pnlSign c.product_type * notional_used * (spot - c.strike_price) / spot

/-- Modelled from the spec: one step of the payoff state machine
(section 4.2, steps 1-5) on a single fixing. -/
def stepFixing (c : StructureConfig) (st : StructureState) (i : Nat) (spot : ℚ) :
    StructureState × Fixing :=
  if st.knocked_out then
    (st, { fixing_id := i, spot := spot,
           leg_1 := ⟨c.strike_price, c.notional⟩,
           leg_2 := ⟨c.strike_price, c.notional⟩,
           geared := false, pnl := none, cumulative_pnl := st.cum_pnl,
           action := Action.terminated })
  else if koHit c spot then
    ({ st with knocked_out := true },
     { fixing_id := i, spot := spot,
       leg_1 := ⟨c.strike_price, c.notional⟩,
       leg_2 := ⟨c.strike_price, c.notional⟩,
       geared := false, pnl := none, cumulative_pnl := st.cum_pnl,
       action := Action.knockOut })
  else if gearEligible c st spot then
    ({ knocked_out := false,
       cum_pnl := st.cum_pnl + fixingPnl c (c.notional * c.leverage) spot,
       geared_count := st.geared_count + 1 },
     { fixing_id := i, spot := spot,
       leg_1 := ⟨c.strike_price, c.notional⟩,
       leg_2 := ⟨c.strike_price, c.notional * c.leverage⟩,
       geared := true,
       pnl := some (fixingPnl c (c.notional * c.leverage) spot),
       cumulative_pnl := st.cum_pnl + fixingPnl c (c.notional * c.leverage) spot,
       action := Action.accumulate true })
  else
    ({ knocked_out := false,
       cum_pnl := st.cum_pnl + fixingPnl c c.notional spot,
       geared_count := st.geared_count },
     { fixing_id := i, spot := spot,
       leg_1 := ⟨c.strike_price, c.notional⟩,
       leg_2 := ⟨c.strike_price, c.notional⟩,
       geared := false,
       pnl := some (fixingPnl c c.notional spot),
       cumulative_pnl := st.cum_pnl + fixingPnl c c.notional spot,
       action := Action.accumulate false })

/-- Run the payoff state machine over the remaining spots, threading the
state (spec 4.2: a strict left-to-right fold with carried StructureState). -/
def runFrom (c : StructureConfig) (st : StructureState) (i : Nat) :
    List ℚ → List Fixing
  | [] => []
  | spot :: rest =>
      (stepFixing c st i spot).2 :: runFrom c (stepFixing c st i spot).1 (i + 1) rest

/-- Payoff state machine: schedule spots → list of fixings. -/
def runMachine (c : StructureConfig) (spots : List ℚ) : List Fixing :=
  runFrom c initState 0 spots

/-- Final StructureState after processing all fixings of one path. -/
def finalState (c : StructureConfig) (spots : List ℚ) : StructureState :=
  spots.foldl (fun st spot => (stepFixing c st 0 spot).1) initState

/-- P&L contribution of a fixing to the cumulative sum (0 when null). -/
def pnlValue (f : Fixing) : ℚ := f.pnl.getD 0

/-- A Gregorian calendar date. -/
structure Date where
  year : Nat
  month : Nat
  day : Nat
deriving DecidableEq, Repr

/-- Gregorian leap-year rule. -/
def isLeapYear (y : Nat) : Bool :=
  (y % 4 == 0 && y % 100 != 0) || y % 400 == 0

/-- Number of days in a month of a given year. -/
def daysInMonth (y m : Nat) : Nat :=
  if m = 2 then (if isLeapYear y then 29 else 28)
  else if m = 4 ∨ m = 6 ∨ m = 9 ∨ m = 11 then 30
  else 31

/-- A date is valid when month and day lie in their calendar ranges. -/
def ValidDate (d : Date) : Prop :=
  1 ≤ d.month ∧ d.month ≤ 12 ∧ 1 ≤ d.day ∧ d.day ≤ daysInMonth d.year d.month

instance (d : Date) : Decidable (ValidDate d) := by
  unfold ValidDate; infer_instance

/-- Month counter: months elapsed before this date's month since year 0. -/
def monthIdx (d : Date) : Nat := 12 * d.year + (d.month - 1)

/-- Injective numeric key realising calendar order on valid dates
(32 exceeds any day-of-month). -/
def dateKey (d : Date) : Nat := 32 * monthIdx d + d.day

/-- Calendar (lexicographic) strict order on dates. -/
def dateBefore (a b : Date) : Prop :=
  a.year < b.year ∨ (a.year = b.year ∧
    (a.month < b.month ∨ (a.month = b.month ∧ a.day < b.day)))

instance (a b : Date) : Decidable (dateBefore a b) := by
  unfold dateBefore; infer_instance

/-- Successor calendar date. -/
def nextDate (d : Date) : Date :=
  if d.day < daysInMonth d.year d.month then ⟨d.year, d.month, d.day + 1⟩
  else if d.month < 12 then ⟨d.year, d.month + 1, 1⟩
  else ⟨d.year + 1, 1, 1⟩

/-- Every date of the range, generated with fuel (enough fuel is supplied by
dailySchedule, one unit per key step). -/
def dailyFrom (e : Date) : Nat → Date → List Date
  | 0, _ => []
  | fuel + 1, cur =>
      if dateKey cur ≤ dateKey e then cur :: dailyFrom e fuel (nextDate cur)
      else []

/-- Modelled from the spec: schedule generator, Daily frequency — every date
in [start, end] (section 4.1). -/
def dailySchedule (s e : Date) : List Date :=
  dailyFrom e (dateKey e + 1 - dateKey s) s

/-- Days before the first day of month m in year y (m given 1-based). -/
def daysBeforeMonth (y m : Nat) : Nat :=
  (List.range (m - 1)).foldl (fun acc k => acc + daysInMonth y (k + 1)) 0

/-- Proleptic-Gregorian ordinal day number (0001-01-01 has ordinal 1). -/
def toOrdinal (d : Date) : Nat :=
  365 * (d.year - 1) + (d.year - 1) / 4 - (d.year - 1) / 100 + (d.year - 1) / 400
    + daysBeforeMonth d.year d.month + d.day

/-- Weekday of a date: 1 = Monday, ..., 5 = Friday, 6 = Saturday, 0 = Sunday. -/
def weekday (d : Date) : Nat := toOrdinal d % 7

/-- The Friday weekday number under this convention. -/
def fridayWeekday : Nat := 5

/-- Modelled from the spec: schedule generator, Weekly frequency — the
business-convention weekday (Friday) in each week of the range. -/
def weeklySchedule (s e : Date) : List Date :=
  (dailySchedule s e).filter (fun d => weekday d == fridayWeekday)

/-- Last day of the month with month counter mi. -/
def endOfMonthIdx (mi : Nat) : Date :=
  ⟨mi / 12, mi % 12 + 1, daysInMonth (mi / 12) (mi % 12 + 1)⟩

/-- Clip a date to an upper bound (used for the final partial month). -/
def clipDate (d e : Date) : Date :=
  if dateKey d ≤ dateKey e then d else e

/-- Modelled from the spec: schedule generator, Monthly frequency — the last
date of each month within range, clipped to end_date for the final partial
month (section 4.1). -/
def monthlySchedule (s e : Date) : List Date :=
  (List.range (monthIdx e + 1 - monthIdx s)).map
    (fun k => clipDate (endOfMonthIdx (monthIdx s + k)) e)

/-- Error taxonomy of the engine (spec section 7). -/
inductive EngineError where
  | InvalidRange
  | InvalidFrequency
  | InvalidMarketParams
  | NoMarketData
  | NoBracket
  | SolverNonConvergence
deriving DecidableEq, Repr

/-- Modelled from the spec: get_schedule, the schedule generator of the
missing backend (configuration → ordered fixing dates, section 4.1).  Fails
with InvalidRange when start > end and InvalidFrequency for an unrecognized
frequency value. -/
def get_schedule (s e : Date) (freq : String) : Except EngineError (List Date) :=
  if dateKey e < dateKey s then .error .InvalidRange
  else if freq = "Daily" then .ok (dailySchedule s e)
  else if freq = "Weekly" then .ok (weeklySchedule s e)
  else if freq = "Monthly" then .ok (monthlySchedule s e)
  else .error .InvalidFrequency

/-- Modelled from the spec: MarketParams — spot price, annualized
volatility, annualized risk-free rate, integer days to expiry (section 3). -/
structure MarketParams where
  spot_price : ℚ
  volatility : ℚ
  risk_free_rate : ℚ
  days_to_expiry : Int
deriving DecidableEq, Repr

/-- Modelled from the spec: the exponential used by the geometric Brownian
motion step and the discount factor.  The missing backend works in floating
point; a fixed truncated series stands in as a computable rational
exponential (the theorems below do not depend on which smooth stand-in is
chosen). -/
def expQ (x : ℚ) : ℚ := 1 + x + x ^ 2 / 2 + x ^ 3 / 6 + x ^ 4 / 24

/-- One trading day as a year fraction (time step of the simulation). -/
def tradingDt : ℚ := 1 / 252

/-- Modelled from the spec: rational stand-in for the square root of the
one-day time step used in the diffusion term. -/
def sqrtTradingDt : ℚ := 63 / 1000

/-- Modelled from the spec: one geometric-Brownian-motion step with drift =
risk-free rate and the configured volatility (section 4.4), z being the
standard normal draw of the step. -/
def gbmStep (mp : MarketParams) (s z : ℚ) : ℚ :=
  s * expQ ((mp.risk_free_rate - mp.volatility ^ 2 / 2) * tradingDt
            + mp.volatility * sqrtTradingDt * z)

/-- Simulated price after t daily steps, driven by the draw stream z. -/
def priceAt (mp : MarketParams) (z : Nat → ℚ) : Nat → ℚ
  | 0 => mp.spot_price
  | t + 1 => gbmStep mp (priceAt mp z t) (z t)

/-- Schedule fields of a full request (dates and frequency feeding
get_schedule, economics feeding the payoff machine). -/
structure ScheduleConfig where
  start_date : Date
  end_date : Date
  frequency : String
deriving DecidableEq, Repr

/-- Modelled from the spec: the schedule's fixing dates mapped onto path
steps (section 4.4), by day offset from the start date, capped at the
horizon. -/
def fixingSteps (sc : ScheduleConfig) (mp : MarketParams) : List Nat :=
  match get_schedule sc.start_date sc.end_date sc.frequency with
  | .ok ds => ds.map (fun d => min (toOrdinal d - toOrdinal sc.start_date)
                                   mp.days_to_expiry.toNat)
  | .error _ => []

/-- Spots of one simulated path sampled at the schedule's fixing steps. -/
def pathSpots (sc : ScheduleConfig) (mp : MarketParams) (z : Nat → ℚ) : List ℚ :=
  (fixingSteps sc mp).map (priceAt mp z)

/-- Final cumulative P&L of one simulated path. -/
def pathFinalPnl (c : StructureConfig) (sc : ScheduleConfig) (mp : MarketParams)
    (z : Nat → ℚ) : ℚ :=
  (finalState c (pathSpots sc mp z)).cum_pnl

/-- Whether one simulated path terminates KnockedOut. -/
def pathKnockedOut (c : StructureConfig) (sc : ScheduleConfig) (mp : MarketParams)
    (z : Nat → ℚ) : Bool :=
  (finalState c (pathSpots sc mp z)).knocked_out

/-- Discount factor at the risk-free rate over the remaining horizon. -/
def discountFactor (mp : MarketParams) : ℚ :=
  expQ (-(mp.risk_free_rate * (mp.days_to_expiry.toNat : ℚ) * tradingDt))

/-- Modelled from the spec: Monte Carlo NPV — mean over n paths of the
discounted final cumulative P&L (section 4.4); draws i t is the normal draw
of step t on path i. -/
def mcNpv (c : StructureConfig) (sc : ScheduleConfig) (mp : MarketParams)
    (n : Nat) (draws : Nat → Nat → ℚ) : ℚ :=
  discountFactor mp *
    ((List.range n).map (fun i => pathFinalPnl c sc mp (draws i))).sum / n

/-- Modelled from the spec: knockout probability — fraction of simulated
paths whose terminal status is KnockedOut (section 4.4). -/
def mcProbKo (c : StructureConfig) (sc : ScheduleConfig) (mp : MarketParams)
    (n : Nat) (draws : Nat → Nat → ℚ) : ℚ :=
  ((List.range n).countP (fun i => pathKnockedOut c sc mp (draws i)) : ℚ) / n

/-- Relative bump used for the finite-difference Greeks. -/
def bumpSize : ℚ := 1 / 100

/-- Greeks of the valuation result. -/
structure Greeks where
  delta : ℚ
  gamma : ℚ
  vega : ℚ
  theta : ℚ
deriving DecidableEq, Repr

/-- Modelled from the spec: central finite-difference Greeks re-running the
valuation with bumped inputs and the same draws (section 4.4). -/
def mcGreeks (c : StructureConfig) (sc : ScheduleConfig) (mp : MarketParams)
    (n : Nat) (draws : Nat → Nat → ℚ) : Greeks :=
  let b := mp.spot_price * bumpSize
  let npv0 := mcNpv c sc mp n draws
  let npvUp := mcNpv c sc { mp with spot_price := mp.spot_price + b } n draws
  let npvDn := mcNpv c sc { mp with spot_price := mp.spot_price - b } n draws
  let npvVol := mcNpv c sc { mp with volatility := mp.volatility + bumpSize } n draws
  let npvTm := mcNpv c sc { mp with days_to_expiry := mp.days_to_expiry - 1 } n draws
  { delta := (npvUp - npvDn) / (2 * b),
    gamma := (npvUp - 2 * npv0 + npvDn) / (b * b),
    vega := (npvVol - npv0) / bumpSize,
    theta := npvTm - npv0 }

/-- Modelled from the spec: one point of the payoff-scenario curve — the
deterministic payoff machine run on the bumped spot held constant across the
whole schedule (section 4.4). -/
def scenarioPnl (c : StructureConfig) (sc : ScheduleConfig) (mp : MarketParams)
    (pct : ℚ) : ℚ :=
  (finalState c ((fixingSteps sc mp).map
      (fun _ => mp.spot_price * (1 + pct / 100)))).cum_pnl

/-- Grid of spot percentage offsets, -10% to +10% in steps of 1%. -/
def scenarioGrid : List ℚ := (List.range 21).map (fun k => (k : ℚ) - 10)

/-- Modelled from the spec: ValuationResult — NPV, knockout probability,
Greeks and the payoff-scenario curve (section 3). -/
structure ValuationResult where
  npv : ℚ
  prob_ko : ℚ
  greeks : Greeks
  payoff_scenario : List (ℚ × ℚ)
deriving DecidableEq, Repr

/-- The complete valuation result computed on valid market parameters. -/
def mcResult (c : StructureConfig) (sc : ScheduleConfig) (mp : MarketParams)
    (n : Nat) (draws : Nat → Nat → ℚ) : ValuationResult :=
  { npv := mcNpv c sc mp n draws,
    prob_ko := mcProbKo c sc mp n draws,
    greeks := mcGreeks c sc mp n draws,
    payoff_scenario := scenarioGrid.map (fun pct => (pct, scenarioPnl c sc mp pct)) }

/-- Modelled from the spec: value_structure — the Monte Carlo valuation
entry point; fails with InvalidMarketParams when volatility ≤ 0,
days_to_expiry ≤ 0 or spot_price ≤ 0 and returns the complete result
otherwise (section 4.4). -/
def value_structure (c : StructureConfig) (sc : ScheduleConfig)
    (mp : MarketParams) (n : Nat) (draws : Nat → Nat → ℚ) :
    Except EngineError ValuationResult :=
  if mp.volatility ≤ 0 ∨ mp.days_to_expiry ≤ 0 ∨ mp.spot_price ≤ 0 then
    .error .InvalidMarketParams
  else
    .ok (mcResult c sc mp n draws)

/-- Base action word of the product type, as matched textually by the
frontend (App.jsx, CustomTooltip). -/
def baseActionWord : ProductType → String
  | .Accumulator => "Accumulate"
  | .Decumulator => "Decumulate"

/-- Modelled from the spec: the action string carried by a fixing; the
gearing marker renders the leverage as in "Accumulate (2x)", matching the
frontend's textual checks (includes "x)", action equal to "Knock Out"). -/
def renderAction (c : StructureConfig) : Action → String
  | .accumulate false => baseActionWord c.product_type
  | .accumulate true =>
      baseActionWord c.product_type ++ " (" ++ toString c.leverage ++ "x)"
  | .knockOut => "Knock Out"
  | .hold => "Hold"
  | .terminated => "Terminated"

/-- s contains needle as a contiguous substring (stated on the underlying
character lists). -/
def containsSub (needle s : String) : Prop :=
  ∃ p q, s.data = p ++ needle.data ++ q

/-- The spec's example scenario (section 8): Accumulator, strike 1.1000,
barrier 1.1500, notional 1,000,000, leverage 2, gearing limit 2. -/
def exCfg : StructureConfig :=
  { product_type := .Accumulator, strike_price := 1.1000, ko_price := 1.1500,
    notional := 1000000, leverage := 2, gearing_limit := 2 }

/-- The spec's example spot path [1.1050, 1.0900, 1.1600]. -/
def exSpots : List ℚ := [1.1050, 1.0900, 1.1600]

/-- A path that knocks out on its first fixing (1.1600 ≥ 1.1500). -/
def ex2Spots : List ℚ := [1.1600, 1.0900]

/-- A Decumulator example configuration (strike 1.1000, barrier 1.0500). -/
def exDecCfg : StructureConfig :=
  { product_type := .Decumulator, strike_price := 1.1000, ko_price := 1.0500,
    notional := 1000000, leverage := 2, gearing_limit := 2 }

/-- A one-month schedule configuration at weekly frequency. -/
def exSched : ScheduleConfig :=
  { start_date := ⟨2024, 1, 1⟩, end_date := ⟨2024, 1, 31⟩, frequency := "Weekly" }

/-- Market parameters with zero volatility (invalid per section 4.4). -/
def exMpZeroVol : MarketParams :=
  { spot_price := 1.08, volatility := 0, risk_free_rate := 5 / 100,
    days_to_expiry := 30 }

/-- Valid market parameters. -/
def exMpValid : MarketParams :=
  { spot_price := 1.08, volatility := 1 / 10, risk_free_rate := 5 / 100,
    days_to_expiry := 30 }

/-- A trivial all-zero draw stream. -/
def zeroDraws : Nat → Nat → ℚ := fun _ _ => 0

end FxAcc

namespace FxAcc

/-! ### Helper lemmas about the payoff state machine -/

theorem stepFixing_knocked (c : StructureConfig) (st : StructureState) (i : Nat)
    (spot : ℚ) (h : st.knocked_out = true) :
    stepFixing c st i spot =
      (st, { fixing_id := i, spot := spot,
             leg_1 := ⟨c.strike_price, c.notional⟩,
             leg_2 := ⟨c.strike_price, c.notional⟩,
             geared := false, pnl := none, cumulative_pnl := st.cum_pnl,
             action := Action.terminated }) := by
  simp [stepFixing, h]

theorem stepFixing_hit (c : StructureConfig) (st : StructureState) (i : Nat)
    (spot : ℚ) (h : st.knocked_out = false) (hh : koHit c spot = true) :
    stepFixing c st i spot =
      ({ st with knocked_out := true },
       { fixing_id := i, spot := spot,
         leg_1 := ⟨c.strike_price, c.notional⟩,
         leg_2 := ⟨c.strike_price, c.notional⟩,
         geared := false, pnl := none, cumulative_pnl := st.cum_pnl,
         action := Action.knockOut }) := by
  simp [stepFixing, h, hh]

theorem stepFixing_geared (c : StructureConfig) (st : StructureState) (i : Nat)
    (spot : ℚ) (h : st.knocked_out = false) (hh : koHit c spot = false)
    (hg : gearEligible c st spot = true) :
    stepFixing c st i spot =
      ({ knocked_out := false,
         cum_pnl := st.cum_pnl + fixingPnl c (c.notional * c.leverage) spot,
         geared_count := st.geared_count + 1 },
       { fixing_id := i, spot := spot,
         leg_1 := ⟨c.strike_price, c.notional⟩,
         leg_2 := ⟨c.strike_price, c.notional * c.leverage⟩,
         geared := true,
         pnl := some (fixingPnl c (c.notional * c.leverage) spot),
         cumulative_pnl := st.cum_pnl + fixingPnl c (c.notional * c.leverage) spot,
         action := Action.accumulate true }) := by
  simp [stepFixing, h, hh, hg]

theorem stepFixing_plain (c : StructureConfig) (st : StructureState) (i : Nat)
    (spot : ℚ) (h : st.knocked_out = false) (hh : koHit c spot = false)
    (hg : gearEligible c st spot = false) :
    stepFixing c st i spot =
      ({ knocked_out := false,
         cum_pnl := st.cum_pnl + fixingPnl c c.notional spot,
         geared_count := st.geared_count },
       { fixing_id := i, spot := spot,
         leg_1 := ⟨c.strike_price, c.notional⟩,
         leg_2 := ⟨c.strike_price, c.notional⟩,
         geared := false,
         pnl := some (fixingPnl c c.notional spot),
         cumulative_pnl := st.cum_pnl + fixingPnl c c.notional spot,
         action := Action.accumulate false }) := by
  simp [stepFixing, h, hh, hg]

theorem runFrom_cons (c : StructureConfig) (st : StructureState) (i : Nat)
    (spot : ℚ) (rest : List ℚ) :
    runFrom c st i (spot :: rest) =
      (stepFixing c st i spot).2 :: runFrom c (stepFixing c st i spot).1 (i + 1) rest :=
  rfl

end FxAcc

namespace FxAcc

theorem mem_runFrom_pnl (c : StructureConfig) :
    ∀ (spots : List ℚ) (st : StructureState) (i : Nat),
      ∀ f ∈ runFrom c st i spots, ∀ g : Bool, f.action = Action.accumulate g →
        f.geared = g ∧
        f.leg_2.notional = (if g then c.notional * c.leverage else c.notional) ∧
        f.pnl = some (pnlSign c.product_type * f.leg_2.notional *
                      (f.spot - c.strike_price) / f.spot) := by
  intro spots
  induction spots with
  | nil => intro st i f hf; simp [runFrom] at hf
  | cons spot rest ih =>
      intro st i f hf g hg
      rw [runFrom_cons] at hf
      rcases List.mem_cons.mp hf with h | h
      · subst h
        by_cases hk : st.knocked_out
        · rw [stepFixing_knocked c st i spot hk] at hg ⊢
          simp at hg
        · by_cases hh : koHit c spot
          · rw [stepFixing_hit c st i spot (by simpa using hk) hh] at hg ⊢
            simp at hg
          · by_cases hgear : gearEligible c st spot
            · rw [stepFixing_geared c st i spot (by simpa using hk)
                    (by simpa using hh) hgear] at hg ⊢
              simp at hg
              subst hg
              simp [fixingPnl]
            · rw [stepFixing_plain c st i spot (by simpa using hk)
                    (by simpa using hh) (by simpa using hgear)] at hg ⊢
              simp at hg
              subst hg
              simp [fixingPnl]
      · exact ih (stepFixing c st i spot).1 (i + 1) f h g hg

theorem step_cum_relation (c : StructureConfig) (st : StructureState) (i : Nat)
    (spot : ℚ) :
    (stepFixing c st i spot).1.cum_pnl =
      st.cum_pnl + pnlValue (stepFixing c st i spot).2 ∧
    (stepFixing c st i spot).2.cumulative_pnl =
      st.cum_pnl + pnlValue (stepFixing c st i spot).2 := by
  by_cases hk : st.knocked_out
  · rw [stepFixing_knocked c st i spot hk]; simp [pnlValue]
  · by_cases hh : koHit c spot
    · rw [stepFixing_hit c st i spot (by simpa using hk) hh]; simp [pnlValue]
    · by_cases hgear : gearEligible c st spot
      · rw [stepFixing_geared c st i spot (by simpa using hk)
              (by simpa using hh) hgear]
        simp [pnlValue]
      · rw [stepFixing_plain c st i spot (by simpa using hk)
              (by simpa using hh) (by simpa using hgear)]
        simp [pnlValue]

theorem runFrom_cum (c : StructureConfig) :
    ∀ (spots : List ℚ) (st : StructureState) (i : Nat) (j : Nat)
      (h : j < (runFrom c st i spots).length),
      ((runFrom c st i spots).get ⟨j, h⟩).cumulative_pnl =
        st.cum_pnl + (((runFrom c st i spots).take (j + 1)).map pnlValue).sum := by
  intro spots
  induction spots with
  | nil => intro st i j h; simp [runFrom] at h
  | cons spot rest ih =>
      intro st i j h
      match j with
      | 0 =>
          simp only [runFrom_cons, List.get_cons_zero, List.take_succ_cons,
            List.take_zero, List.map_cons, List.map_nil, List.sum_cons,
            List.sum_nil, add_zero]
          exact (step_cum_relation c st i spot).2
      | j + 1 =>
          have hcons : j + 1 <
              ((stepFixing c st i spot).2 ::
                runFrom c (stepFixing c st i spot).1 (i + 1) rest).length := by
            simpa [runFrom_cons] using h
          show (((stepFixing c st i spot).2 ::
                  runFrom c (stepFixing c st i spot).1 (i + 1) rest).get
                ⟨j + 1, hcons⟩).cumulative_pnl =
            st.cum_pnl +
              ((((stepFixing c st i spot).2 ::
                  runFrom c (stepFixing c st i spot).1 (i + 1) rest).take
                  (j + 1 + 1)).map pnlValue).sum
          simp only [List.get_cons_succ, List.take_succ_cons, List.map_cons,
            List.sum_cons]
          rw [ih (stepFixing c st i spot).1 (i + 1) j (by simpa using hcons)]
          rw [(step_cum_relation c st i spot).1]
          ring

end FxAcc

namespace FxAcc

/-- C1: for every fixing processed while Active that does not knock out,
the per-fixing P&L equals sign × notional_used × (spot − strike) / spot
with sign +1 for an Accumulator and −1 for a Decumulator and notional_used
equal to leg_2's notional (notional×leverage when geared, notional
otherwise); the cumulative P&L of each fixing is the running sum of the
per-fixing values. -/
theorem C1_pnl_formula_and_cumulative (c : StructureConfig) (spots : List ℚ) :
    (∀ f ∈ runMachine c spots, ∀ g : Bool, f.action = Action.accumulate g →
        f.geared = g ∧
        f.leg_2.notional = (if g then c.notional * c.leverage else c.notional) ∧
        f.pnl = some (pnlSign c.product_type * f.leg_2.notional *
                      (f.spot - c.strike_price) / f.spot)) ∧
    (∀ (j : Nat) (h : j < (runMachine c spots).length),
        ((runMachine c spots).get ⟨j, h⟩).cumulative_pnl =
          (((runMachine c spots).take (j + 1)).map pnlValue).sum) := by
  constructor
  · exact fun f hf => mem_runFrom_pnl c spots initState 0 f hf
  · intro j h
    have := runFrom_cum c spots initState 0 j h
    simpa [runMachine, initState] using this

/-- Witness for C1 on the spec's example scenario: the geared second fixing
satisfies the P&L formula and its cumulative P&L is the running sum. -/
theorem C1_witness :
    (((runMachine exCfg exSpots).get ⟨1, by simp [runMachine, runFrom, exSpots]⟩).geared = true ∧
     ((runMachine exCfg exSpots).get ⟨1, by simp [runMachine, runFrom, exSpots]⟩).leg_2.notional =
       (if true then exCfg.notional * exCfg.leverage else exCfg.notional) ∧
     ((runMachine exCfg exSpots).get ⟨1, by simp [runMachine, runFrom, exSpots]⟩).pnl =
       some (pnlSign exCfg.product_type *
             ((runMachine exCfg exSpots).get ⟨1, by simp [runMachine, runFrom, exSpots]⟩).leg_2.notional *
             (((runMachine exCfg exSpots).get ⟨1, by simp [runMachine, runFrom, exSpots]⟩).spot -
               exCfg.strike_price) /
             ((runMachine exCfg exSpots).get ⟨1, by simp [runMachine, runFrom, exSpots]⟩).spot)) ∧
    ((runMachine exCfg exSpots).get ⟨1, by simp [runMachine, runFrom, exSpots]⟩).cumulative_pnl =
      (((runMachine exCfg exSpots).take 2).map pnlValue).sum := by
  constructor
  · exact (C1_pnl_formula_and_cumulative exCfg exSpots).1
      ((runMachine exCfg exSpots).get ⟨1, by simp [runMachine, runFrom, exSpots]⟩)
      (List.get_mem (runMachine exCfg exSpots) 1 (by simp [runMachine, runFrom, exSpots]))
      true
      (by norm_num [runMachine, runFrom, stepFixing, koHit, gearEligible,
            lossFixing, fixingPnl, pnlSign, initState, exCfg, exSpots])
  · exact (C1_pnl_formula_and_cumulative exCfg exSpots).2 1
      (by simp [runMachine, runFrom, exSpots])

end FxAcc

namespace FxAcc

theorem runFrom_terminated_of_knocked (c : StructureConfig) :
    ∀ (spots : List ℚ) (st : StructureState) (i : Nat),
      st.knocked_out = true →
      ∀ f ∈ runFrom c st i spots,
        f.action = Action.terminated ∧ f.pnl = none ∧ f.geared = false := by
  intro spots
  induction spots with
  | nil => intro st i _ f hf; simp [runFrom] at hf
  | cons spot rest ih =>
      intro st i hk f hf
      rw [runFrom_cons] at hf
      rw [stepFixing_knocked c st i spot hk] at hf
      rcases List.mem_cons.mp hf with h | h
      · subst h; exact ⟨rfl, rfl, rfl⟩
      · exact ih st (i + 1) hk f h

theorem runFrom_length (c : StructureConfig) :
    ∀ (spots : List ℚ) (st : StructureState) (k : Nat),
      (runFrom c st k spots).length = spots.length := by
  intro spots
  induction spots with
  | nil => intro st k; rfl
  | cons spot rest ih =>
      intro st k
      rw [runFrom_cons]
      simp [ih (stepFixing c st k spot).1 (k + 1)]

theorem runFrom_get_zero (c : StructureConfig) (st : StructureState)
    (k : Nat) (spot : ℚ) (rest : List ℚ)
    (h : 0 < (runFrom c st k (spot :: rest)).length) :
    (runFrom c st k (spot :: rest)).get ⟨0, h⟩ = (stepFixing c st k spot).2 :=
  rfl

theorem runFrom_get_succ (c : StructureConfig) (st : StructureState)
    (k : Nat) (spot : ℚ) (rest : List ℚ) (j : Nat)
    (h : j + 1 < (runFrom c st k (spot :: rest)).length)
    (h2 : j < (runFrom c (stepFixing c st k spot).1 (k + 1) rest).length) :
    (runFrom c st k (spot :: rest)).get ⟨j + 1, h⟩ =
      (runFrom c (stepFixing c st k spot).1 (k + 1) rest).get ⟨j, h2⟩ :=
  rfl

theorem step_action_knockOut (c : StructureConfig) (st : StructureState)
    (k : Nat) (spot : ℚ)
    (h : (stepFixing c st k spot).2.action = Action.knockOut) :
    st.knocked_out = false ∧ koHit c spot = true := by
  by_cases hk : st.knocked_out
  · rw [stepFixing_knocked c st k spot hk] at h; simp at h
  · by_cases hh : koHit c spot
    · exact ⟨by simpa using hk, hh⟩
    · by_cases hgear : gearEligible c st spot
      · rw [stepFixing_geared c st k spot (by simpa using hk)
              (by simpa using hh) hgear] at h
        simp at h
      · rw [stepFixing_plain c st k spot (by simpa using hk)
              (by simpa using hh) (by simpa using hgear)] at h
        simp at h

theorem runFrom_ko_monotone (c : StructureConfig) :
    ∀ (spots : List ℚ) (st : StructureState) (k i j : Nat)
      (hi : i < (runFrom c st k spots).length)
      (hj : j < (runFrom c st k spots).length),
      i ≤ j →
      ((runFrom c st k spots).get ⟨i, hi⟩).action = Action.knockOut →
      ((runFrom c st k spots).get ⟨j, hj⟩).pnl = none ∧
      ((runFrom c st k spots).get ⟨i, hi⟩).geared = false ∧
      (i < j → ((runFrom c st k spots).get ⟨j, hj⟩).action = Action.terminated) := by
  intro spots
  induction spots with
  | nil => intro st k i j hi; simp [runFrom] at hi
  | cons spot rest ih =>
      intro st k i j hi hj hij hko
      match i, j with
      | 0, 0 =>
          rw [runFrom_get_zero] at hko ⊢
          obtain ⟨hk, hh⟩ := step_action_knockOut c st k spot hko
          rw [stepFixing_hit c st k spot hk hh]
          exact ⟨rfl, rfl, by omega⟩
      | 0, j + 1 =>
          rw [runFrom_get_zero] at hko
          obtain ⟨hk, hh⟩ := step_action_knockOut c st k spot hko
          have hstep : (stepFixing c st k spot).1.knocked_out = true := by
            rw [stepFixing_hit c st k spot hk hh]
          have hjj : j < (runFrom c (stepFixing c st k spot).1 (k + 1) rest).length := by
            have := hj
            rw [runFrom_cons] at this
            simpa using this
          have hterm := runFrom_terminated_of_knocked c rest
            (stepFixing c st k spot).1 (k + 1) hstep _
            (List.get_mem _ j hjj)
          rw [runFrom_get_zero, runFrom_get_succ c st k spot rest j hj hjj]
          refine ⟨hterm.2.1, ?_, fun _ => hterm.1⟩
          rw [stepFixing_hit c st k spot hk hh]
      | i + 1, j + 1 =>
          have hii : i < (runFrom c (stepFixing c st k spot).1 (k + 1) rest).length := by
            have := hi; rw [runFrom_cons] at this; simpa using this
          have hjj : j < (runFrom c (stepFixing c st k spot).1 (k + 1) rest).length := by
            have := hj; rw [runFrom_cons] at this; simpa using this
          rw [runFrom_get_succ c st k spot rest i hi hii] at hko
          rw [runFrom_get_succ c st k spot rest j hj hjj,
            runFrom_get_succ c st k spot rest i hi hii]
          have := ih (stepFixing c st k spot).1 (k + 1) i j hii hjj (by omega) hko
          exact ⟨this.1, this.2.1, fun h2 => this.2.2 (by omega)⟩

end FxAcc

namespace FxAcc

/-- C2: once a fixing is tagged Knock Out, that fixing and every later
fixing has null P&L, every fixing after it is tagged Terminated, and the
triggering fixing itself earns no P&L and no gearing (knockout is checked
before the gearing/accumulation logic); the KnockedOut state never reverses
for the rest of the schedule. -/
theorem C2_knockout_monotone (c : StructureConfig) (spots : List ℚ)
    (i j : Nat) (hi : i < (runMachine c spots).length)
    (hj : j < (runMachine c spots).length) (hij : i ≤ j)
    (hko : ((runMachine c spots).get ⟨i, hi⟩).action = Action.knockOut) :
    ((runMachine c spots).get ⟨j, hj⟩).pnl = none ∧
    ((runMachine c spots).get ⟨i, hi⟩).pnl = none ∧
    ((runMachine c spots).get ⟨i, hi⟩).geared = false ∧
    (i < j → ((runMachine c spots).get ⟨j, hj⟩).action = Action.terminated) := by
  have h := runFrom_ko_monotone c spots initState 0 i j hi hj hij hko
  have hself := runFrom_ko_monotone c spots initState 0 i i hi hi le_rfl hko
  exact ⟨h.1, hself.1, h.2.1, h.2.2⟩

/-- Witness for C2: on the path that knocks out at its first fixing, the
second fixing is Terminated with null P&L and the triggering fixing earns
no P&L. -/
theorem C2_witness :
    ((runMachine exCfg ex2Spots).get ⟨1, by simp [runMachine, runFrom, ex2Spots]⟩).pnl = none ∧
    ((runMachine exCfg ex2Spots).get ⟨0, by simp [runMachine, runFrom, ex2Spots]⟩).pnl = none ∧
    ((runMachine exCfg ex2Spots).get ⟨0, by simp [runMachine, runFrom, ex2Spots]⟩).geared = false ∧
    (0 < 1 → ((runMachine exCfg ex2Spots).get ⟨1, by simp [runMachine, runFrom, ex2Spots]⟩).action =
      Action.terminated) :=
  C2_knockout_monotone exCfg ex2Spots 0 1
    (by simp [runMachine, runFrom, ex2Spots])
    (by simp [runMachine, runFrom, ex2Spots])
    (by omega)
    (by norm_num [runMachine, runFrom, stepFixing, koHit, gearEligible,
          lossFixing, fixingPnl, pnlSign, initState, exCfg, ex2Spots])

end FxAcc

namespace FxAcc

/-- C3: the knockout comparison is non-strict for both product types: on an
active fixing with spot ≥ barrier (Accumulator) or spot ≤ barrier
(Decumulator) — including spot exactly at the barrier — the machine marks
the state KnockedOut and emits a Knock Out fixing with null P&L. -/
theorem C3_nonstrict_knockout (c : StructureConfig) (st : StructureState)
    (i : Nat) (spot : ℚ) (hactive : st.knocked_out = false)
    (hbar : (c.product_type = ProductType.Accumulator ∧ c.ko_price ≤ spot) ∨
            (c.product_type = ProductType.Decumulator ∧ spot ≤ c.ko_price)) :
    (stepFixing c st i spot).1.knocked_out = true ∧
    (stepFixing c st i spot).2.action = Action.knockOut ∧
    (stepFixing c st i spot).2.pnl = none := by
  have hh : koHit c spot = true := by
    rcases hbar with ⟨hpt, hle⟩ | ⟨hpt, hle⟩ <;> simp [koHit, hpt, hle]
  rw [stepFixing_hit c st i spot hactive hh]
  exact ⟨rfl, rfl, rfl⟩

/-- Witness for C3 at the exact barrier for both product types:
Accumulator with spot = barrier = 1.1500 and Decumulator with
spot = barrier = 1.0500 both knock out. -/
theorem C3_witness :
    ((stepFixing exCfg initState 0 (1.1500 : ℚ)).1.knocked_out = true ∧
     (stepFixing exCfg initState 0 (1.1500 : ℚ)).2.action = Action.knockOut ∧
     (stepFixing exCfg initState 0 (1.1500 : ℚ)).2.pnl = none) ∧
    ((stepFixing exDecCfg initState 0 (1.0500 : ℚ)).1.knocked_out = true ∧
     (stepFixing exDecCfg initState 0 (1.0500 : ℚ)).2.action = Action.knockOut ∧
     (stepFixing exDecCfg initState 0 (1.0500 : ℚ)).2.pnl = none) :=
  ⟨C3_nonstrict_knockout exCfg initState 0 1.1500 rfl
      (Or.inl ⟨rfl, by norm_num [exCfg]⟩),
   C3_nonstrict_knockout exDecCfg initState 0 1.0500 rfl
      (Or.inr ⟨rfl, by norm_num [exDecCfg]⟩)⟩

theorem runFrom_geared_count (c : StructureConfig) :
    ∀ (spots : List ℚ) (st : StructureState) (i : Nat),
      st.geared_count + (runFrom c st i spots).countP (fun f => f.geared) ≤
        max c.gearing_limit st.geared_count := by
  intro spots
  induction spots with
  | nil => intro st i; simp [runFrom]
  | cons spot rest ih =>
      intro st i
      rw [runFrom_cons]
      by_cases hk : st.knocked_out
      · rw [stepFixing_knocked c st i spot hk]
        have := ih st (i + 1)
        simp only [List.countP_cons]
        simpa using this
      · by_cases hh : koHit c spot
        · rw [stepFixing_hit c st i spot (by simpa using hk) hh]
          have := ih { st with knocked_out := true } (i + 1)
          simp only [List.countP_cons]
          simpa using this
        · by_cases hgear : gearEligible c st spot
          · rw [stepFixing_geared c st i spot (by simpa using hk)
                  (by simpa using hh) hgear]
            have hlt : st.geared_count < c.gearing_limit := by
              have := hgear
              simp [gearEligible] at this
              exact this.2
            have := ih { knocked_out := false,
                         cum_pnl := st.cum_pnl +
                           fixingPnl c (c.notional * c.leverage) spot,
                         geared_count := st.geared_count + 1 } (i + 1)
            dsimp only at this
            simp only [List.countP_cons]
            simp
            omega
          · rw [stepFixing_plain c st i spot (by simpa using hk)
                  (by simpa using hh) (by simpa using hgear)]
            have := ih { knocked_out := false,
                         cum_pnl := st.cum_pnl + fixingPnl c c.notional spot,
                         geared_count := st.geared_count } (i + 1)
            simp only [List.countP_cons]
            simp only at this
            simpa using this

/-- C4: on every active, non-knockout fixing, leg_2 is geared exactly when
the fixing is a loss fixing and the geared count so far is strictly below
the gearing limit (then its notional is notional×leverage and the counter
increments), and otherwise carries the plain notional; consequently the
number of geared fixings in any run never exceeds the gearing limit. -/
theorem C4_gearing (c : StructureConfig) :
    (∀ (st : StructureState) (i : Nat) (spot : ℚ),
      st.knocked_out = false →
      ¬ ((c.product_type = ProductType.Accumulator ∧ c.ko_price ≤ spot) ∨
         (c.product_type = ProductType.Decumulator ∧ spot ≤ c.ko_price)) →
      (((stepFixing c st i spot).2.geared = true ↔
          (((c.product_type = ProductType.Accumulator ∧ spot < c.strike_price) ∨
            (c.product_type = ProductType.Decumulator ∧ c.strike_price < spot)) ∧
           st.geared_count < c.gearing_limit)) ∧
       (stepFixing c st i spot).2.leg_2.notional =
         (if (stepFixing c st i spot).2.geared then c.notional * c.leverage
          else c.notional) ∧
       (stepFixing c st i spot).1.geared_count =
         st.geared_count +
           (if (stepFixing c st i spot).2.geared then 1 else 0))) ∧
    (∀ spots : List ℚ,
      (runMachine c spots).countP (fun f => f.geared) ≤ c.gearing_limit) := by
  constructor
  · intro st i spot hactive hnbar
    have hh : koHit c spot = false := by
      cases hpt : c.product_type with
      | Accumulator =>
          simp only [koHit, hpt, decide_eq_false_iff_not]
          intro hle
          exact hnbar (Or.inl ⟨hpt, hle⟩)
      | Decumulator =>
          simp only [koHit, hpt, decide_eq_false_iff_not]
          intro hle
          exact hnbar (Or.inr ⟨hpt, hle⟩)
    have hloss : lossFixing c spot = true ↔
        ((c.product_type = ProductType.Accumulator ∧ spot < c.strike_price) ∨
         (c.product_type = ProductType.Decumulator ∧ c.strike_price < spot)) := by
      cases hpt : c.product_type with
      | Accumulator => simp [lossFixing, hpt]
      | Decumulator => simp [lossFixing, hpt]
    by_cases hgear : gearEligible c st spot
    · rw [stepFixing_geared c st i spot hactive hh hgear]
      have hcond := hgear
      simp only [gearEligible, Bool.and_eq_true, decide_eq_true_eq] at hcond
      refine ⟨?_, by simp, by simp⟩
      simp only [true_iff]
      exact ⟨hloss.mp hcond.1, hcond.2⟩
    · rw [stepFixing_plain c st i spot hactive hh (by simpa using hgear)]
      have hcond : ¬ (lossFixing c spot = true ∧
          st.geared_count < c.gearing_limit) := by
        intro hc
        exact hgear (by simp [gearEligible, hc.1, hc.2])
      refine ⟨?_, by simp, by simp⟩
      simp only [Bool.false_eq_true, false_iff]
      intro hc
      exact hcond ⟨hloss.mpr hc.1, hc.2⟩
  · intro spots
    have := runFrom_geared_count c spots initState 0
    simpa [runMachine, initState] using this

/-- Witness for C4: on the example scenario the second fixing (spot 1.0900,
a loss fixing within the gearing window) is geared with doubled notional,
and the whole run gears at most gearing_limit fixings. -/
theorem C4_witness :
    (((stepFixing exCfg initState 0 (1.0900 : ℚ)).2.geared = true ↔
        (((exCfg.product_type = ProductType.Accumulator ∧
            (1.0900 : ℚ) < exCfg.strike_price) ∨
          (exCfg.product_type = ProductType.Decumulator ∧
            exCfg.strike_price < (1.0900 : ℚ))) ∧
         initState.geared_count < exCfg.gearing_limit)) ∧
     (stepFixing exCfg initState 0 (1.0900 : ℚ)).2.leg_2.notional =
       (if (stepFixing exCfg initState 0 (1.0900 : ℚ)).2.geared then
          exCfg.notional * exCfg.leverage else exCfg.notional) ∧
     (stepFixing exCfg initState 0 (1.0900 : ℚ)).1.geared_count =
       initState.geared_count +
         (if (stepFixing exCfg initState 0 (1.0900 : ℚ)).2.geared then 1
          else 0)) ∧
    (runMachine exCfg exSpots).countP (fun f => f.geared) ≤
      exCfg.gearing_limit :=
  ⟨(C4_gearing exCfg).1 initState 0 1.0900 rfl
      (by rintro (⟨_, hle⟩ | ⟨hpt, _⟩)
          · revert hle; norm_num [exCfg]
          · exact absurd hpt (by simp [exCfg])),
   (C4_gearing exCfg).2 exSpots⟩

end FxAcc

namespace FxAcc

/-- C5 counterexample: on the spec's example scenario the machine emits
exactly the formula values, and the second fixing's P&L,
2,000,000×(1.0900−1.1000)/1.0900 = −18,348.62..., is more than 16,000 below
the claimed ≈ −1,834.86 (the claim's approximation is off by a factor of
ten), so the claimed figures are not the machine's output. -/
theorem C5_counterexample :
    (runMachine exCfg exSpots).map Fixing.pnl =
      [some (1000000 * ((1.1050 : ℚ) - 1.1000) / 1.1050),
       some (2000000 * ((1.0900 : ℚ) - 1.1000) / 1.0900), none] ∧
    2000000 * ((1.0900 : ℚ) - 1.1000) / 1.0900 - (-1834.86) < -16000 := by
  constructor
  · norm_num [runMachine, runFrom, stepFixing, koHit, gearEligible,
      lossFixing, fixingPnl, pnlSign, initState, exCfg, exSpots]
  · norm_num

/-- C5 amended: same scenario with the corrected approximations — fixing 1
is a plain accumulate with P&L = 1,000,000×(1.1050−1.1000)/1.1050 ≈
4,524.89, fixing 2 is geared with P&L = 2,000,000×(1.0900−1.1000)/1.0900 ≈
−18,348.62, fixing 3 knocks out (spot 1.1600 ≥ barrier 1.1500) with null
P&L, and the terminal state is KnockedOut. -/
theorem C5_amended :
    (runMachine exCfg exSpots).map Fixing.pnl =
      [some (1000000 * ((1.1050 : ℚ) - 1.1000) / 1.1050),
       some (2000000 * ((1.0900 : ℚ) - 1.1000) / 1.0900), none] ∧
    (runMachine exCfg exSpots).map Fixing.action =
      [Action.accumulate false, Action.accumulate true, Action.knockOut] ∧
    (runMachine exCfg exSpots).map Fixing.geared = [false, true, false] ∧
    (finalState exCfg exSpots).knocked_out = true ∧
    |1000000 * ((1.1050 : ℚ) - 1.1000) / 1.1050 - 4524.89| < 1 / 100 ∧
    |2000000 * ((1.0900 : ℚ) - 1.1000) / 1.0900 + 18348.62| < 1 / 100 := by
  refine ⟨?_, ?_, ?_, ?_, ?_, ?_⟩
  · norm_num [runMachine, runFrom, stepFixing, koHit, gearEligible,
      lossFixing, fixingPnl, pnlSign, initState, exCfg, exSpots]
  · norm_num [runMachine, runFrom, stepFixing, koHit, gearEligible,
      lossFixing, fixingPnl, pnlSign, initState, exCfg, exSpots]
  · norm_num [runMachine, runFrom, stepFixing, koHit, gearEligible,
      lossFixing, fixingPnl, pnlSign, initState, exCfg, exSpots]
  · norm_num [finalState, stepFixing, koHit, gearEligible, lossFixing,
      fixingPnl, pnlSign, initState, exCfg, exSpots]
  · rw [abs_sub_lt_iff]; norm_num
  · rw [abs_lt]; norm_num

end FxAcc

namespace FxAcc

/-! ### Helper lemmas about the calendar and the schedule generator -/

theorem daysInMonth_pos (y m : Nat) : 1 ≤ daysInMonth y m := by
  unfold daysInMonth
  split_ifs <;> omega

theorem daysInMonth_le (y m : Nat) : daysInMonth y m ≤ 31 := by
  unfold daysInMonth
  split_ifs <;> omega

theorem valid_nextDate (d : Date) (h : ValidDate d) : ValidDate (nextDate d) := by
  obtain ⟨h1, h2, h3, h4⟩ := h
  unfold nextDate
  split_ifs with hday hmon
  · exact ⟨h1, h2, by dsimp only; omega, by dsimp only; omega⟩
  · exact ⟨by dsimp only; omega, by dsimp only; omega, le_refl 1,
      by dsimp only; exact daysInMonth_pos _ _⟩
  · exact ⟨by dsimp only; omega, by dsimp only; omega, le_refl 1,
      by dsimp only; exact daysInMonth_pos _ _⟩

theorem dateKey_nextDate (d : Date) (h : ValidDate d) :
    dateKey d < dateKey (nextDate d) := by
  obtain ⟨h1, h2, h3, h4⟩ := h
  have h31 := daysInMonth_le d.year d.month
  unfold nextDate
  split_ifs with hday hmon <;> simp only [dateKey, monthIdx] <;> omega

theorem mem_dailyFrom (e : Date) :
    ∀ (fuel : Nat) (cur : Date), ValidDate cur →
      ∀ d ∈ dailyFrom e fuel cur,
        ValidDate d ∧ dateKey cur ≤ dateKey d ∧ dateKey d ≤ dateKey e := by
  intro fuel
  induction fuel with
  | zero => intro cur hv d hd; simp [dailyFrom] at hd
  | succ n ih =>
      intro cur hv d hd
      simp only [dailyFrom] at hd
      by_cases hle : dateKey cur ≤ dateKey e
      · rw [if_pos hle] at hd
        rcases List.mem_cons.mp hd with h | h
        · subst h; exact ⟨hv, le_refl _, hle⟩
        · have := ih (nextDate cur) (valid_nextDate cur hv) d h
          exact ⟨this.1,
            le_trans (le_of_lt (dateKey_nextDate cur hv)) this.2.1, this.2.2⟩
      · rw [if_neg hle] at hd
        simp at hd

theorem pairwise_dailyFrom (e : Date) :
    ∀ (fuel : Nat) (cur : Date), ValidDate cur →
      (dailyFrom e fuel cur).Pairwise (fun a b => dateKey a < dateKey b) := by
  intro fuel
  induction fuel with
  | zero => intro cur hv; simp [dailyFrom]
  | succ n ih =>
      intro cur hv
      simp only [dailyFrom]
      by_cases hle : dateKey cur ≤ dateKey e
      · rw [if_pos hle]
        refine List.Pairwise.cons ?_ (ih (nextDate cur) (valid_nextDate cur hv))
        intro b hb
        have := mem_dailyFrom e n (nextDate cur) (valid_nextDate cur hv) b hb
        exact lt_of_lt_of_le (dateKey_nextDate cur hv) this.2.1
      · rw [if_neg hle]
        exact List.Pairwise.nil

theorem monthIdx_endOfMonthIdx (mi : Nat) : monthIdx (endOfMonthIdx mi) = mi := by
  simp only [endOfMonthIdx, monthIdx]
  omega

theorem valid_endOfMonthIdx (mi : Nat) : ValidDate (endOfMonthIdx mi) :=
  ⟨by simp only [endOfMonthIdx]; omega,
   by simp only [endOfMonthIdx]; omega,
   daysInMonth_pos _ _, le_refl _⟩

theorem dateKey_endOfMonthIdx (mi : Nat) :
    dateKey (endOfMonthIdx mi) =
      32 * mi + daysInMonth (mi / 12) (mi % 12 + 1) := by
  simp only [dateKey, monthIdx, endOfMonthIdx]
  omega

theorem endOfMonthIdx_monthIdx (d : Date) (h : ValidDate d) :
    endOfMonthIdx (monthIdx d) =
      ⟨d.year, d.month, daysInMonth d.year d.month⟩ := by
  obtain ⟨h1, h2, _, _⟩ := h
  have hy : (12 * d.year + (d.month - 1)) / 12 = d.year := by omega
  have hm : (12 * d.year + (d.month - 1)) % 12 + 1 = d.month := by omega
  simp only [endOfMonthIdx, monthIdx, hy, hm]

theorem clipDate_valid (d e : Date) (hd : ValidDate d) (he : ValidDate e) :
    ValidDate (clipDate d e) := by
  unfold clipDate
  split_ifs
  exacts [hd, he]

theorem clipDate_key_le (d e : Date) : dateKey (clipDate d e) ≤ dateKey e := by
  unfold clipDate
  split_ifs with h
  exacts [h, le_refl _]

theorem mem_monthlySchedule (s e : Date) (hs : ValidDate s) (he : ValidDate e)
    (hse : dateKey s ≤ dateKey e) :
    ∀ d ∈ monthlySchedule s e,
      ValidDate d ∧ dateKey s ≤ dateKey d ∧ dateKey d ≤ dateKey e := by
  intro d hd
  simp only [monthlySchedule, List.mem_map, List.mem_range] at hd
  obtain ⟨k, hk, rfl⟩ := hd
  refine ⟨clipDate_valid _ _ (valid_endOfMonthIdx _) he, ?_, clipDate_key_le _ _⟩
  unfold clipDate
  split_ifs with hcl
  · rcases Nat.eq_zero_or_pos k with hk0 | hk0
    · subst hk0
      rw [Nat.add_zero, endOfMonthIdx_monthIdx s hs]
      have hday : s.day ≤ daysInMonth s.year s.month := hs.2.2.2
      simp only [dateKey, monthIdx]
      omega
    · rw [dateKey_endOfMonthIdx]
      have hdim := daysInMonth_pos ((monthIdx s + k) / 12) ((monthIdx s + k) % 12 + 1)
      have hday31 : s.day ≤ 31 :=
        le_trans hs.2.2.2 (daysInMonth_le s.year s.month)
      simp only [dateKey]
      omega
  · exact hse

theorem pairwise_monthlySchedule (s e : Date) (hs : ValidDate s)
    (he : ValidDate e) (hse : dateKey s ≤ dateKey e) :
    (monthlySchedule s e).Pairwise (fun a b => dateKey a < dateKey b) := by
  have hmise : monthIdx s ≤ monthIdx e := by
    have h1 : 1 ≤ s.day := hs.2.2.1
    have h2 : e.day ≤ 31 := le_trans he.2.2.2 (daysInMonth_le e.year e.month)
    simp only [dateKey] at hse
    omega
  unfold monthlySchedule
  rw [List.pairwise_map]
  refine List.Pairwise.imp_of_mem ?_ (List.pairwise_lt_range _)
  intro a b ha hb hab
  rw [List.mem_range] at ha hb
  have hmia : monthIdx s + a < monthIdx e := by omega
  have hmib : monthIdx s + b ≤ monthIdx e := by omega
  have heday : 1 ≤ e.day := he.2.2.1
  have hkeyE : dateKey (endOfMonthIdx (monthIdx s + a)) ≤ dateKey e := by
    rw [dateKey_endOfMonthIdx]
    have h31 := daysInMonth_le ((monthIdx s + a) / 12) ((monthIdx s + a) % 12 + 1)
    simp only [dateKey]
    omega
  have hlb : 32 * (monthIdx s + b) + 1 ≤
      dateKey (clipDate (endOfMonthIdx (monthIdx s + b)) e) := by
    unfold clipDate
    split_ifs with hcl
    · rw [dateKey_endOfMonthIdx]
      have := daysInMonth_pos ((monthIdx s + b) / 12) ((monthIdx s + b) % 12 + 1)
      omega
    · simp only [dateKey]
      omega
  have hclA : clipDate (endOfMonthIdx (monthIdx s + a)) e =
      endOfMonthIdx (monthIdx s + a) := by
    unfold clipDate
    rw [if_pos hkeyE]
  rw [hclA, dateKey_endOfMonthIdx]
  have h31 := daysInMonth_le ((monthIdx s + a) / 12) ((monthIdx s + a) % 12 + 1)
  omega

theorem dateBefore_iff_key (a b : Date) (ha : ValidDate a) (hb : ValidDate b) :
    dateBefore a b ↔ dateKey a < dateKey b := by
  obtain ⟨ha1, ha2, ha3, ha4⟩ := ha
  obtain ⟨hb1, hb2, hb3, hb4⟩ := hb
  have ha31 : a.day ≤ 31 := le_trans ha4 (daysInMonth_le a.year a.month)
  have hb31 : b.day ≤ 31 := le_trans hb4 (daysInMonth_le b.year b.month)
  simp only [dateBefore, dateKey, monthIdx]
  omega

end FxAcc

namespace FxAcc

/-- C6: for valid start ≤ end and a recognized frequency, get_schedule
succeeds with a strictly increasing list of calendar dates, none before
start nor after end, and with Weekly frequency every date is a Friday. -/
theorem C6_schedule_generator (s e : Date) (freq : String) (hs : ValidDate s)
    (he : ValidDate e) (hse : dateKey s ≤ dateKey e)
    (hf : freq = "Daily" ∨ freq = "Weekly" ∨ freq = "Monthly") :
    ∃ ds, get_schedule s e freq = Except.ok ds ∧
      ds.Pairwise dateBefore ∧
      (∀ d ∈ ds, ¬ dateBefore d s ∧ ¬ dateBefore e d) ∧
      (freq = "Weekly" → ∀ d ∈ ds, weekday d = fridayWeekday) := by
  have hnr : ¬ dateKey e < dateKey s := not_lt.mpr hse
  have dailyMem : ∀ d ∈ dailySchedule s e,
      ValidDate d ∧ dateKey s ≤ dateKey d ∧ dateKey d ≤ dateKey e :=
    fun d hd => mem_dailyFrom e (dateKey e + 1 - dateKey s) s hs d hd
  have dailyPw : (dailySchedule s e).Pairwise (fun a b => dateKey a < dateKey b) :=
    pairwise_dailyFrom e (dateKey e + 1 - dateKey s) s hs
  have toBefore : ∀ (l : List Date),
      (∀ d ∈ l, ValidDate d ∧ dateKey s ≤ dateKey d ∧ dateKey d ≤ dateKey e) →
      l.Pairwise (fun a b => dateKey a < dateKey b) →
      l.Pairwise dateBefore ∧
      (∀ d ∈ l, ¬ dateBefore d s ∧ ¬ dateBefore e d) := by
    intro l hmem hpw
    constructor
    · refine List.Pairwise.imp_of_mem ?_ hpw
      intro a b ha hb hab
      exact (dateBefore_iff_key a b (hmem a ha).1 (hmem b hb).1).mpr hab
    · intro d hd
      obtain ⟨hv, hge, hle⟩ := hmem d hd
      constructor
      · intro hb
        have := (dateBefore_iff_key d s hv hs).mp hb
        omega
      · intro hb
        have := (dateBefore_iff_key e d he hv).mp hb
        omega
  rcases hf with hfreq | hfreq | hfreq
  · refine ⟨dailySchedule s e, ?_, ?_, ?_, ?_⟩
    · simp [get_schedule, hfreq, hnr]
    · exact (toBefore _ dailyMem dailyPw).1
    · exact (toBefore _ dailyMem dailyPw).2
    · intro habs
      rw [hfreq] at habs
      simp at habs
  · have weeklyMem : ∀ d ∈ weeklySchedule s e,
        ValidDate d ∧ dateKey s ≤ dateKey d ∧ dateKey d ≤ dateKey e := by
      intro d hd
      exact dailyMem d (List.mem_filter.mp hd).1
    have weeklyPw : (weeklySchedule s e).Pairwise
        (fun a b => dateKey a < dateKey b) :=
      dailyPw.sublist (List.filter_sublist _)
    refine ⟨weeklySchedule s e, ?_, ?_, ?_, ?_⟩
    · simp [get_schedule, hfreq, hnr]
    · exact (toBefore _ weeklyMem weeklyPw).1
    · exact (toBefore _ weeklyMem weeklyPw).2
    · intro _ d hd
      have := (List.mem_filter.mp hd).2
      simpa using this
  · have monMem := mem_monthlySchedule s e hs he hse
    have monPw := pairwise_monthlySchedule s e hs he hse
    refine ⟨monthlySchedule s e, ?_, ?_, ?_, ?_⟩
    · simp [get_schedule, hfreq, hnr]
    · exact (toBefore _ monMem monPw).1
    · exact (toBefore _ monMem monPw).2
    · intro habs
      rw [hfreq] at habs
      simp at habs

/-- Witness for C6 on a concrete January 2024 weekly schedule. -/
theorem C6_witness :
    ∃ ds, get_schedule ⟨2024, 1, 1⟩ ⟨2024, 1, 31⟩ "Weekly" = Except.ok ds ∧
      ds.Pairwise dateBefore ∧
      (∀ d ∈ ds, ¬ dateBefore d ⟨2024, 1, 1⟩ ∧ ¬ dateBefore ⟨2024, 1, 31⟩ d) ∧
      ("Weekly" = "Weekly" → ∀ d ∈ ds, weekday d = fridayWeekday) :=
  C6_schedule_generator ⟨2024, 1, 1⟩ ⟨2024, 1, 31⟩ "Weekly"
    (by decide) (by decide) (by decide) (Or.inr (Or.inl rfl))

end FxAcc

namespace FxAcc

/-- C7: value_structure fails with InvalidMarketParams exactly when
volatility ≤ 0, days_to_expiry ≤ 0 or spot_price ≤ 0, and on valid inputs
returns the complete valuation result (never a partial one). -/
theorem C7_invalid_market_params (c : StructureConfig) (sc : ScheduleConfig)
    (mp : MarketParams) (n : Nat) (draws : Nat → Nat → ℚ) :
    (value_structure c sc mp n draws =
        Except.error EngineError.InvalidMarketParams ↔
      (mp.volatility ≤ 0 ∨ mp.days_to_expiry ≤ 0 ∨ mp.spot_price ≤ 0)) ∧
    (¬ (mp.volatility ≤ 0 ∨ mp.days_to_expiry ≤ 0 ∨ mp.spot_price ≤ 0) →
      value_structure c sc mp n draws =
        Except.ok (mcResult c sc mp n draws)) := by
  unfold value_structure
  constructor
  · constructor
    · intro h
      by_contra hc
      rw [if_neg hc] at h
      simp at h
    · intro h
      rw [if_pos h]
  · intro h
    rw [if_neg h]

/-- Witness for C7: zero volatility is rejected with InvalidMarketParams,
and valid market parameters produce the complete result. -/
theorem C7_witness :
    value_structure exCfg exSched exMpZeroVol 8 zeroDraws =
      Except.error EngineError.InvalidMarketParams ∧
    value_structure exCfg exSched exMpValid 8 zeroDraws =
      Except.ok (mcResult exCfg exSched exMpValid 8 zeroDraws) :=
  ⟨(C7_invalid_market_params exCfg exSched exMpZeroVol 8 zeroDraws).1.mpr
      (Or.inl (by norm_num [exMpZeroVol])),
   (C7_invalid_market_params exCfg exSched exMpValid 8 zeroDraws).2
      (by push_neg
          refine ⟨?_, ?_, ?_⟩ <;> norm_num [exMpValid])⟩

/-- C8 counterexample: with volatility exactly zero, value_structure
returns the InvalidMarketParams failure, so the Monte Carlo Valuation
Engine returns no NPV at all at zero volatility (spec 4.4's validation
contradicts the degenerate-distribution check of spec section 8). -/
theorem C8_counterexample :
    value_structure exCfg exSched exMpZeroVol 16 zeroDraws =
      Except.error EngineError.InvalidMarketParams := by
  unfold value_structure
  rw [if_pos (Or.inl (by norm_num [exMpZeroVol]))]

/-- C8 amended: with zero volatility the Monte Carlo NPV estimator itself
(bypassing the input-validation gate) equals the discounted deterministic
payoff of the payoff state machine on the forward-deterministic path. -/
theorem C8_zero_vol_deterministic (c : StructureConfig) (sc : ScheduleConfig)
    (mp : MarketParams) (n : Nat) (draws : Nat → Nat → ℚ)
    (hvol : mp.volatility = 0) (hn : 0 < n) :
    mcNpv c sc mp n draws =
      discountFactor mp * pathFinalPnl c sc mp (fun _ => 0) := by
  have hstep : ∀ (z : Nat → ℚ) (t : Nat),
      priceAt mp z t = priceAt mp (fun _ => 0) t := by
    intro z t
    induction t with
    | zero => rfl
    | succ t ih =>
        simp only [priceAt, ih, gbmStep, hvol]
        ring_nf
  have hpath : ∀ z : Nat → ℚ,
      pathFinalPnl c sc mp z = pathFinalPnl c sc mp (fun _ => 0) := by
    intro z
    unfold pathFinalPnl pathSpots
    rw [funext (hstep z)]
  have hmap : (List.range n).map (fun i => pathFinalPnl c sc mp (draws i)) =
      List.replicate n (pathFinalPnl c sc mp (fun _ => 0)) := by
    have hall : ∀ b ∈ (List.range n).map
        (fun i => pathFinalPnl c sc mp (draws i)),
        b = pathFinalPnl c sc mp (fun _ => 0) := by
      intro b hb
      obtain ⟨i, _, rfl⟩ := List.mem_map.mp hb
      exact hpath (draws i)
    have hrep := List.eq_replicate_of_mem hall
    simpa using hrep
  have hne : (n : ℚ) ≠ 0 := Nat.cast_ne_zero.mpr hn.ne'
  unfold mcNpv
  rw [hmap, List.sum_replicate, nsmul_eq_mul, mul_div_assoc,
    mul_div_cancel_left₀ _ hne]

/-- Witness for C8's amended statement at concrete zero-volatility inputs. -/
theorem C8_witness :
    mcNpv exCfg exSched exMpZeroVol 3 zeroDraws =
      discountFactor exMpZeroVol *
        pathFinalPnl exCfg exSched exMpZeroVol (fun _ => 0) :=
  C8_zero_vol_deterministic exCfg exSched exMpZeroVol 3 zeroDraws rfl
    (by norm_num)

/-- C9: the knockout probability of every successful valuation is the
fraction of simulated paths whose terminal state is KnockedOut, and lies
in [0, 1]. -/
theorem C9_prob_ko_fraction (c : StructureConfig) (sc : ScheduleConfig)
    (mp : MarketParams) (n : Nat) (draws : Nat → Nat → ℚ)
    (r : ValuationResult)
    (h : value_structure c sc mp n draws = Except.ok r) :
    r.prob_ko =
      (((List.range n).countP
          (fun i => pathKnockedOut c sc mp (draws i)) : ℚ)) / (n : ℚ) ∧
    0 ≤ r.prob_ko ∧ r.prob_ko ≤ 1 := by
  have hr : r = mcResult c sc mp n draws := by
    unfold value_structure at h
    split_ifs at h with hc
    exact Except.ok.inj h.symm
  subst hr
  have hcount : ((List.range n).countP
      (fun i => pathKnockedOut c sc mp (draws i))) ≤ n := by
    have := List.countP_le_length
      (p := fun i => pathKnockedOut c sc mp (draws i)) (l := List.range n)
    simpa using this
  refine ⟨rfl, ?_, ?_⟩
  · show 0 ≤ mcProbKo c sc mp n draws
    unfold mcProbKo
    positivity
  · show mcProbKo c sc mp n draws ≤ 1
    unfold mcProbKo
    rcases Nat.eq_zero_or_pos n with hn | hn
    · subst hn
      norm_num
    · rw [div_le_one (by exact_mod_cast hn)]
      exact_mod_cast hcount

/-- Witness for C9 on a concrete successful valuation with two paths. -/
theorem C9_witness :
    (mcResult exCfg exSched exMpValid 2 zeroDraws).prob_ko =
      (((List.range 2).countP
          (fun i => pathKnockedOut exCfg exSched exMpValid (zeroDraws i)) : ℚ)) /
        ((2 : Nat) : ℚ) ∧
    0 ≤ (mcResult exCfg exSched exMpValid 2 zeroDraws).prob_ko ∧
    (mcResult exCfg exSched exMpValid 2 zeroDraws).prob_ko ≤ 1 :=
  C9_prob_ko_fraction exCfg exSched exMpValid 2 zeroDraws
    (mcResult exCfg exSched exMpValid 2 zeroDraws)
    (by unfold value_structure
        rw [if_neg]
        push_neg
        refine ⟨?_, ?_, ?_⟩ <;> norm_num [exMpValid])

end FxAcc

namespace FxAcc

/-- C10: every fixing emitted by the payoff machine carries an action
string from the fixed vocabulary the frontend matches textually: plain
settling fixings contain the Accumulate/Decumulate word, geared fixings
additionally contain the substring "x)" of the leverage marker, the
knockout fixing's action is exactly "Knock Out", and non-settling fixings
are "Terminated" or "Hold". -/
theorem C10_action_vocabulary (c : StructureConfig) (spots : List ℚ) :
    ∀ f ∈ runMachine c spots,
      (∃ g : Bool, f.action = Action.accumulate g ∧
        containsSub (baseActionWord c.product_type) (renderAction c f.action) ∧
        (g = true → containsSub "x)" (renderAction c f.action))) ∨
      (f.action = Action.knockOut ∧ renderAction c f.action = "Knock Out") ∨
      (f.action = Action.terminated ∧ renderAction c f.action = "Terminated") ∨
      (f.action = Action.hold ∧ renderAction c f.action = "Hold") := by
  intro f _
  cases hact : f.action with
  | accumulate g =>
      left
      refine ⟨g, rfl, ?_, ?_⟩
      · cases g with
        | false =>
            refine ⟨[], [], ?_⟩
            simp [renderAction]
        | true =>
            refine ⟨[], (" (" ++ toString c.leverage ++ "x)").data, ?_⟩
            simp [renderAction, String.data_append, List.append_assoc]
      · intro hg
        subst hg
        refine ⟨(baseActionWord c.product_type ++ " (" ++
          toString c.leverage).data, [], ?_⟩
        simp [renderAction, String.data_append, List.append_assoc]
  | knockOut => right; left; exact ⟨rfl, rfl⟩
  | terminated => right; right; left; exact ⟨rfl, rfl⟩
  | hold => right; right; right; exact ⟨rfl, rfl⟩

/-- Witness for C10: the knockout fixing of the example run renders
exactly "Knock Out". -/
theorem C10_witness :
    (∃ g : Bool,
      ((runMachine exCfg exSpots).get ⟨2, by simp [runMachine, runFrom, exSpots]⟩).action =
        Action.accumulate g ∧
      containsSub (baseActionWord exCfg.product_type)
        (renderAction exCfg
          ((runMachine exCfg exSpots).get ⟨2, by simp [runMachine, runFrom, exSpots]⟩).action) ∧
      (g = true → containsSub "x)"
        (renderAction exCfg
          ((runMachine exCfg exSpots).get ⟨2, by simp [runMachine, runFrom, exSpots]⟩).action))) ∨
    (((runMachine exCfg exSpots).get ⟨2, by simp [runMachine, runFrom, exSpots]⟩).action =
        Action.knockOut ∧
      renderAction exCfg
        ((runMachine exCfg exSpots).get ⟨2, by simp [runMachine, runFrom, exSpots]⟩).action =
        "Knock Out") ∨
    (((runMachine exCfg exSpots).get ⟨2, by simp [runMachine, runFrom, exSpots]⟩).action =
        Action.terminated ∧
      renderAction exCfg
        ((runMachine exCfg exSpots).get ⟨2, by simp [runMachine, runFrom, exSpots]⟩).action =
        "Terminated") ∨
    (((runMachine exCfg exSpots).get ⟨2, by simp [runMachine, runFrom, exSpots]⟩).action =
        Action.hold ∧
      renderAction exCfg
        ((runMachine exCfg exSpots).get ⟨2, by simp [runMachine, runFrom, exSpots]⟩).action =
        "Hold") :=
  C10_action_vocabulary exCfg exSpots
    ((runMachine exCfg exSpots).get ⟨2, by simp [runMachine, runFrom, exSpots]⟩)
    (List.get_mem (runMachine exCfg exSpots) 2
      (by simp [runMachine, runFrom, exSpots]))

end FxAcc
